import Mathlib

/-!
# Sequential Speech Playback Engine: a shallow embedding

This file embeds the playback engine of the Finnish Text Analyser
(`App.tsx`, the cache-enabled variant: `speakSentences`, `playAudio`,
`handleReadAloud`, `handleReset`) as an executable small-step state
machine, and proves or refutes the frozen claims about it.

Modelling notes, keyed to the source:

* JavaScript runs the driver single-threaded with cooperative
  suspension: the code between two `await` points (and each promise
  continuation) executes atomically.  We therefore model the driver as
  a state machine whose steps are these atomic blocks; the points at
  which the driver is suspended are recorded in a program-counter
  field `phase`.
* The environment chooses when each outstanding promise settles and
  when the user clicks stop / reset / read-aloud; these are the other
  actions of the machine.
* `isCancelledRef.current` is the field `cancelled`;
  `isSpeaking` is `speaking`; `setSpeakingSentenceId` updates
  `nowPlaying` and emits a `publish`/`publishNone` event;
  `audioRef.current` being non-null is `audioSet`;
  `audioCacheRef.current` is `cache` and `preloadingRef.current` is
  `preloading`.  Audio payloads are opaque and irrelevant to every
  claim, so the cache is modelled by the set (list, no duplicates
  mattering only via membership) of indices present.
* `pending` is a ghost field: the multiset of indices for which a
  background prefetch request has been issued but has not yet
  settled.  It exists in the real run as the set of outstanding
  `synthesizeSpeech` promises created by the prefetch block; the code
  cannot observe it directly, the model uses it to know which
  settlement actions are possible.
* A second concurrent invocation of `speakSentences` (the user
  restarts playback after a stop or reset) begins with the
  synchronous writes `isCancelledRef.current = false;
  setIsSpeaking(true)`.  The action `extStart` models exactly that
  write prefix of such an invocation; the new invocation's own loop is
  a separate session and is not tracked by this machine.
-/

namespace Playback

/-- Program counter of one `speakSentences` invocation: where the driver
is currently suspended.  `awaitSynth i` is the inline
`await synthesizeSpeech(...)` for segment `i` (the cache-miss path);
`awaitPlay i started` is the `await playAudio(...)` for segment `i`,
with `started = true` iff an audio element was actually constructed
(`playAudio` resolves immediately without constructing one when the
cancellation flag is set at invocation time). -/
inductive Phase where
  | idle : Phase
  | awaitSynth (i : Nat) : Phase
  | awaitPlay (i : Nat) (started : Bool) : Phase
  deriving DecidableEq

/-- Observable events emitted by the engine. -/
inductive Ev where
  /-- `setSpeakingSentenceId(i)`: the UI is told segment `i` is now playing. -/
  | publish (i : Nat) : Ev
  /-- `setSpeakingSentenceId(null)`. -/
  | publishNone : Ev
  /-- The prefetch block issues a background `synthesizeSpeech` request for `i`. -/
  | reqPrefetch (i : Nat) : Ev
  /-- The driver issues an inline `synthesizeSpeech` request for `i` (cache miss). -/
  | reqInline (i : Nat) : Ev
  /-- `audioCacheRef.current.set(i, ...)`. -/
  | cacheWrite (i : Nat) : Ev
  /-- `playAudio` constructs an audio element and starts playback of segment `i`. -/
  | playStart (i : Nat) : Ev
  /-- `alert(...)`: the user-visible error notification of the catch block. -/
  | alertErr : Ev
  /-- `console.error` in the prefetch catch handler for segment `i`. -/
  | logErr (i : Nat) : Ev
  deriving DecidableEq

/-- The shared mutable state of the engine together with the driver's
program counter.  `n` is `sentencesForTTS.length` as captured by the
running `speakSentences` closure (immutable for the session). -/
structure Engine where
  n : Nat
  cancelled : Bool
  speaking : Bool
  nowPlaying : Option Nat
  audioSet : Bool
  cache : List Nat
  preloading : List Nat
  pending : List Nat
  phase : Phase
  deriving DecidableEq

/-- Actions: driver resumptions (promise settlements) and user/environment
events that can occur between the driver's atomic blocks. -/
inductive Action where
  /-- The inline `synthesizeSpeech` for the segment at `awaitSynth` settles;
  `ok = false` is a rejection. -/
  | synthSettle (ok : Bool) : Action
  /-- The playing audio reaches its natural end (`onended`). -/
  | playEnded : Action
  /-- The audio element raises an error or the `play()` promise rejects. -/
  | playErr : Action
  /-- The background prefetch request for index `id` settles;
  `ok = false` is a rejection. -/
  | prefetchSettle (id : Nat) (ok : Bool) : Action
  /-- `handleReadAloud` while `isSpeaking`: stop. -/
  | stop : Action
  /-- `handleReset`: cancel, release audio, clear cache and in-flight set. -/
  | reset : Action
  /-- The synchronous write prefix of a new concurrent `speakSentences`
  invocation: `isCancelledRef.current = false; setIsSpeaking(true)`. -/
  | extStart : Action
  deriving DecidableEq

/-- Presence-preserving insertion: `Map.set` as seen through membership. -/
def insertIdx (l : List Nat) (i : Nat) : List Nat :=
  if i ∈ l then l else i :: l

/-- Lines 507-509 of `App.tsx` (also reached via `break`):
`setIsSpeaking(false); setSpeakingSentenceId(null); audioRef.current = null`. -/
def cleanup (e : Engine) : Engine × List Ev :=
  ({ e with speaking := false, nowPlaying := none, audioSet := false,
            phase := Phase.idle },
   [Ev.publishNone])

/-- One arm of the prefetch block (lines 471-487): for a single lookahead
index `id`, if `id` is within bounds and neither cached nor in-flight,
mark it in-flight and issue the background request.  The spec calls this
operation `ensure(id)`. -/
def ensure (e : Engine) (id : Nat) : Engine × List Ev :=
  if id < e.n then
    if id ∉ e.cache ∧ id ∉ e.preloading then
      ({ e with preloading := id :: e.preloading, pending := id :: e.pending },
       [Ev.reqPrefetch id])
    else (e, [])
  else (e, [])

/-- The synchronous prefix of `playAudio` as invoked by the driver for
segment `i` (lines 390-411): if the cancellation flag is set the promise
resolves without constructing an audio element; otherwise the audio
element is built, assigned to `audioRef` and playback starts.  Either
way the driver suspends awaiting the promise. -/
def startPlay (e : Engine) (i : Nat) : Engine × List Ev :=
  if e.cancelled then
    ({ e with phase := Phase.awaitPlay i false }, [])
  else
    ({ e with audioSet := true, phase := Phase.awaitPlay i true },
     [Ev.playStart i])

/-- One iteration of the driver loop (lines 464-498) from the top-of-loop
cancellation check down to the next suspension point (or loop exit):
check the flag, check the loop bound, publish `i`, run the prefetch block
for `i+1` and `i+2` (`PRELOAD_AHEAD_COUNT = 2`), then either hit the
cache and call `playAudio`, or issue the inline synthesis request and
suspend. -/
def iterate (e : Engine) (i : Nat) : Engine × List Ev :=
  if e.cancelled then cleanup e
  else if i < e.n then
    let e1 := { e with nowPlaying := some i }
    let r2 := ensure e1 (i + 1)
    let r3 := ensure r2.1 (i + 2)
    if i ∈ r3.1.cache then
      let r4 := startPlay r3.1 i
      (r4.1, Ev.publish i :: (r2.2 ++ r3.2 ++ r4.2))
    else
      ({ r3.1 with phase := Phase.awaitSynth i },
       Ev.publish i :: (r2.2 ++ r3.2 ++ [Ev.reqInline i]))
  else cleanup e

/-- The step function of the machine: `none` when the action is not
enabled in the given state.  Each case is the corresponding atomic block
of the source. -/
def step (e : Engine) (a : Action) : Option (Engine × List Ev) :=
  match a with
  | Action.synthSettle ok =>
    match e.phase with
    | Phase.awaitSynth i =>
      if ok then
        -- lines 493-498: `if (isCancelledRef.current) break;`
        -- `audioCacheRef.current.set(i, audioData); ... await playAudio(...)`.
        if e.cancelled then some (cleanup e)
        else
          let e1 := { e with cache := insertIdx e.cache i }
          let r := startPlay e1 i
          some (r.1, Ev.cacheWrite i :: r.2)
      else
        -- lines 499-504: catch, alert, break.
        let r := cleanup e
        some (r.1, Ev.alertErr :: r.2)
    | _ => none
  | Action.playEnded =>
    match e.phase with
    | Phase.awaitPlay i _ =>
      -- `onended`: cleanup audio, resolve; the loop advances to `i+1`.
      some (iterate { e with audioSet := false } (i + 1))
    | _ => none
  | Action.playErr =>
    match e.phase with
    | Phase.awaitPlay i started =>
      if started then
        -- `onerror` / `play().catch` (lines 422-446): cancellation-induced
        -- errors resolve; real errors reject into the catch block.
        if e.cancelled then some (iterate { e with audioSet := false } (i + 1))
        else
          let r := cleanup { e with audioSet := false }
          some (r.1, Ev.alertErr :: r.2)
      else none
    | _ => none
  | Action.prefetchSettle id ok =>
    if id ∈ e.pending then
      if ok then
        -- `.then(audioData => { if (!isCancelledRef.current)
        --    audioCacheRef.current.set(id, audioData) })
        --  .finally(() => preloadingRef.current.delete(id))`.
        let e1 := if e.cancelled then e else { e with cache := insertIdx e.cache id }
        let evs := if e.cancelled then ([] : List Ev) else [Ev.cacheWrite id]
        some ({ e1 with preloading := e1.preloading.erase id,
                        pending := e1.pending.erase id }, evs)
      else
        -- `.catch(err => console.error(...)).finally(... delete(id))`.
        some ({ e with preloading := e.preloading.erase id,
                       pending := e.pending.erase id }, [Ev.logErr id])
    else none
  | Action.stop =>
    -- `handleReadAloud`, `isSpeaking` branch (lines 513-522).
    if e.speaking then
      some ({ e with cancelled := true, audioSet := false, speaking := false,
                     nowPlaying := none }, [Ev.publishNone])
    else none
  | Action.reset =>
    -- `handleReset` (lines 532-547); the running driver's captured
    -- sentence list (`n`) and its outstanding requests are unaffected.
    some ({ e with cancelled := true, audioSet := false, cache := [],
                   preloading := [], speaking := false, nowPlaying := none },
          [Ev.publishNone])
  | Action.extStart =>
    if e.speaking then none
    else some ({ e with cancelled := false, speaking := true }, [])

/-- Run a list of actions, skipping the ones that are not enabled, and
collect the emitted events in order. -/
def run : Engine → List Action → Engine × List Ev
  | e, [] => (e, [])
  | e, a :: as =>
    match step e a with
    | none => run e as
    | some (e1, v1) =>
      let r := run e1 as
      (r.1, v1 ++ r.2)

/-- The state of a fresh document with `n` sentences: empty cache, empty
in-flight set, nothing pending, driver idle. -/
def initEngine (n : Nat) : Engine :=
  ⟨n, false, false, none, false, [], [], [], Phase.idle⟩

/-- The synchronous prefix of `speakSentences(startIndex)` (lines
454-498): bounds check and early return, else reset the cancellation
flag, mark speaking, and run the first loop iteration down to its first
suspension point. -/
def speakSentences (e : Engine) (s : Nat) : Engine × List Ev :=
  if s < e.n then
    iterate { e with cancelled := false, speaking := true } s
  else
    ({ e with speaking := false, nowPlaying := none }, [Ev.publishNone])

/-- A whole session: start `speakSentences s` on a fresh `n`-sentence
document, then let the environment drive the machine with `acts`. -/
def runSession (n s : Nat) (acts : List Action) : Engine × List Ev :=
  let r0 := speakSentences (initEngine n) s
  let r := run r0.1 acts
  (r.1, r0.2 ++ r.2)

/-- The "now playing" indices published to the UI, in order. -/
def pubIdx (evs : List Ev) : List Nat :=
  evs.filterMap fun ev =>
    match ev with
    | Ev.publish i => some i
    | _ => none

/-- The list `[s, s+1, ..., s+k-1]`. -/
def consecFrom : Nat → Nat → List Nat
  | _, 0 => []
  | s, k + 1 => s :: consecFrom (s + 1) k

/-- The state after `step`, with disabled steps leaving the state unchanged. -/
def stepSt (e : Engine) (a : Action) : Engine :=
  ((step e a).getD (e, [])).1

/-- The events emitted by `step`, with disabled steps emitting nothing. -/
def stepEvs (e : Engine) (a : Action) : List Ev :=
  ((step e a).getD (e, [])).2

/-- Events that constitute forward progress of a session: publishing a
now-playing index, issuing an inline synthesis request, starting
playback of a segment. -/
def attemptEv : Ev → Bool := fun ev =>
  match ev with
  | Ev.publish _ => true
  | Ev.reqInline _ => true
  | Ev.playStart _ => true
  | _ => false

/-- Events emitted by the driver itself (forward progress or the
user-visible error notification). -/
def driverEv : Ev → Bool := fun ev =>
  match ev with
  | Ev.publish _ => true
  | Ev.reqInline _ => true
  | Ev.playStart _ => true
  | Ev.alertErr => true
  | _ => false

/-- The index the driver would publish next: the segment after the one
currently being synthesized or played, or past the end when idle. -/
def nextPub (e : Engine) : Nat :=
  match e.phase with
  | Phase.idle => e.n
  | Phase.awaitSynth i => i + 1
  | Phase.awaitPlay i _ => i + 1

/-! ### Small computation lemmas -/

@[simp] theorem pubIdx_nil : pubIdx [] = [] := rfl

@[simp] theorem pubIdx_append (l1 l2 : List Ev) :
    pubIdx (l1 ++ l2) = pubIdx l1 ++ pubIdx l2 :=
  List.filterMap_append l1 l2 _

@[simp] theorem pubIdx_cons_publish (i : Nat) (l : List Ev) :
    pubIdx (Ev.publish i :: l) = i :: pubIdx l := rfl

@[simp] theorem pubIdx_cons_publishNone (l : List Ev) :
    pubIdx (Ev.publishNone :: l) = pubIdx l := rfl

@[simp] theorem pubIdx_cons_reqPrefetch (i : Nat) (l : List Ev) :
    pubIdx (Ev.reqPrefetch i :: l) = pubIdx l := rfl

@[simp] theorem pubIdx_cons_reqInline (i : Nat) (l : List Ev) :
    pubIdx (Ev.reqInline i :: l) = pubIdx l := rfl

@[simp] theorem pubIdx_cons_cacheWrite (i : Nat) (l : List Ev) :
    pubIdx (Ev.cacheWrite i :: l) = pubIdx l := rfl

@[simp] theorem pubIdx_cons_playStart (i : Nat) (l : List Ev) :
    pubIdx (Ev.playStart i :: l) = pubIdx l := rfl

@[simp] theorem pubIdx_cons_alertErr (l : List Ev) :
    pubIdx (Ev.alertErr :: l) = pubIdx l := rfl

@[simp] theorem pubIdx_cons_logErr (i : Nat) (l : List Ev) :
    pubIdx (Ev.logErr i :: l) = pubIdx l := rfl

@[simp] theorem consecFrom_zero (s : Nat) : consecFrom s 0 = [] := rfl

@[simp] theorem consecFrom_succ (s k : Nat) :
    consecFrom s (k + 1) = s :: consecFrom (s + 1) k := rfl

@[simp] theorem length_consecFrom (k : Nat) : ∀ s, (consecFrom s k).length = k := by
  induction k with
  | zero => intro s; rfl
  | succ k ih => intro s; simp [ih]

theorem mem_consecFrom {j : Nat} (k : Nat) :
    ∀ s, j ∈ consecFrom s k → s ≤ j ∧ j < s + k := by
  induction k with
  | zero => intro s h; simp at h
  | succ k ih =>
    intro s h
    rcases (List.mem_cons).1 h with h | h
    · omega
    · have := ih (s + 1) h
      omega

@[simp] theorem ensure_fst_n (e : Engine) (id : Nat) : (ensure e id).1.n = e.n := by
  unfold ensure; split_ifs <;> rfl

@[simp] theorem ensure_fst_cancelled (e : Engine) (id : Nat) :
    (ensure e id).1.cancelled = e.cancelled := by
  unfold ensure; split_ifs <;> rfl

@[simp] theorem ensure_fst_speaking (e : Engine) (id : Nat) :
    (ensure e id).1.speaking = e.speaking := by
  unfold ensure; split_ifs <;> rfl

@[simp] theorem ensure_fst_nowPlaying (e : Engine) (id : Nat) :
    (ensure e id).1.nowPlaying = e.nowPlaying := by
  unfold ensure; split_ifs <;> rfl

@[simp] theorem ensure_fst_audioSet (e : Engine) (id : Nat) :
    (ensure e id).1.audioSet = e.audioSet := by
  unfold ensure; split_ifs <;> rfl

@[simp] theorem ensure_fst_cache (e : Engine) (id : Nat) :
    (ensure e id).1.cache = e.cache := by
  unfold ensure; split_ifs <;> rfl

@[simp] theorem ensure_fst_phase (e : Engine) (id : Nat) :
    (ensure e id).1.phase = e.phase := by
  unfold ensure; split_ifs <;> rfl

@[simp] theorem pubIdx_ensure (e : Engine) (id : Nat) :
    pubIdx (ensure e id).2 = [] := by
  unfold ensure; split_ifs <;> rfl

theorem ensure_preloading_mono (e : Engine) (id : Nat) :
    e.preloading ⊆ (ensure e id).1.preloading := by
  unfold ensure; split_ifs <;> intro x hx <;> simp [hx]

theorem ensure_pending_mono (e : Engine) (id : Nat) :
    e.pending ⊆ (ensure e id).1.pending := by
  unfold ensure; split_ifs <;> intro x hx <;> simp [hx]

@[simp] theorem startPlay_fst_n (e : Engine) (i : Nat) : (startPlay e i).1.n = e.n := by
  unfold startPlay; split_ifs <;> rfl

@[simp] theorem startPlay_fst_cancelled (e : Engine) (i : Nat) :
    (startPlay e i).1.cancelled = e.cancelled := by
  unfold startPlay; split_ifs <;> rfl

@[simp] theorem startPlay_fst_cache (e : Engine) (i : Nat) :
    (startPlay e i).1.cache = e.cache := by
  unfold startPlay; split_ifs <;> rfl

@[simp] theorem startPlay_fst_preloading (e : Engine) (i : Nat) :
    (startPlay e i).1.preloading = e.preloading := by
  unfold startPlay; split_ifs <;> rfl

@[simp] theorem startPlay_fst_pending (e : Engine) (i : Nat) :
    (startPlay e i).1.pending = e.pending := by
  unfold startPlay; split_ifs <;> rfl

@[simp] theorem pubIdx_startPlay (e : Engine) (i : Nat) :
    pubIdx (startPlay e i).2 = [] := by
  unfold startPlay; split_ifs <;> rfl

@[simp] theorem nextPub_startPlay (e : Engine) (i : Nat) :
    nextPub (startPlay e i).1 = i + 1 := by
  unfold startPlay nextPub; split_ifs <;> rfl

@[simp] theorem cleanup_fst_n (e : Engine) : (cleanup e).1.n = e.n := rfl

@[simp] theorem cleanup_fst_cancelled (e : Engine) :
    (cleanup e).1.cancelled = e.cancelled := rfl

@[simp] theorem cleanup_fst_cache (e : Engine) : (cleanup e).1.cache = e.cache := rfl

@[simp] theorem cleanup_fst_preloading (e : Engine) :
    (cleanup e).1.preloading = e.preloading := rfl

@[simp] theorem cleanup_fst_pending (e : Engine) :
    (cleanup e).1.pending = e.pending := rfl

@[simp] theorem cleanup_fst_phase (e : Engine) : (cleanup e).1.phase = Phase.idle := rfl

@[simp] theorem cleanup_snd (e : Engine) : (cleanup e).2 = [Ev.publishNone] := rfl

@[simp] theorem nextPub_cleanup (e : Engine) : nextPub (cleanup e).1 = e.n := rfl

theorem nextPub_congr (e1 e : Engine) (h1 : e1.phase = e.phase) (h2 : e1.n = e.n) :
    nextPub e1 = nextPub e := by
  unfold nextPub
  rw [h1, h2]

/-- One driver loop iteration either exits the loop (publishing no index)
or publishes exactly its index `i` and suspends with `i + 1` next. -/
theorem iterate_spec (e : Engine) (i : Nat) :
    (iterate e i).1.n = e.n ∧
    ((pubIdx (iterate e i).2 = [] ∧ nextPub (iterate e i).1 = e.n) ∨
     (pubIdx (iterate e i).2 = [i] ∧ nextPub (iterate e i).1 = i + 1 ∧ i < e.n)) := by
  simp only [iterate]
  split_ifs with hc hn hcache
  · simp
  · exact ⟨by simp, Or.inr ⟨by simp, by simp, hn⟩⟩
  · exact ⟨by simp, Or.inr ⟨by simp, by simp [nextPub], hn⟩⟩
  · simp

/-- When the flag is down and `i` is in range, the iteration definitely
publishes `i`. -/
theorem iterate_pub (e : Engine) (i : Nat) (hc : e.cancelled = false) (hn : i < e.n) :
    pubIdx (iterate e i).2 = [i] ∧ nextPub (iterate e i).1 = i + 1 ∧
    (iterate e i).1.n = e.n := by
  simp only [iterate]
  rw [if_neg (by simp [hc]), if_pos hn]
  split_ifs
  · exact ⟨by simp, by simp, by simp⟩
  · exact ⟨by simp, by simp [nextPub], by simp⟩

/-- Per-step publication discipline: a step publishes nothing and keeps
the next index, or ends the session publishing nothing, or publishes
exactly the next index and advances it. -/
theorem step_pub_spec (e : Engine) (a : Action) (e1 : Engine) (v : List Ev)
    (h : step e a = some (e1, v)) :
    e1.n = e.n ∧
    ((pubIdx v = [] ∧ nextPub e1 = nextPub e) ∨
     (pubIdx v = [] ∧ nextPub e1 = e.n) ∨
     (pubIdx v = [nextPub e] ∧ nextPub e1 = nextPub e + 1 ∧ nextPub e < e.n)) := by
  cases a with
  | synthSettle ok =>
    simp only [step] at h
    cases hp : e.phase with
    | idle => rw [hp] at h; simp at h
    | awaitPlay i b => rw [hp] at h; simp at h
    | awaitSynth i =>
      rw [hp] at h
      cases ok with
      | false =>
        simp only [Bool.false_eq_true, if_false, Option.some.injEq, Prod.mk.injEq] at h
        obtain ⟨h1, h2⟩ := h
        subst h1; subst h2
        exact ⟨by simp, Or.inr (Or.inl ⟨by simp, by simp⟩)⟩
      | true =>
        simp only [if_true] at h
        by_cases hc : e.cancelled = true
        · rw [if_pos hc] at h
          simp only [Option.some.injEq] at h
          obtain ⟨rfl, rfl⟩ : e1 = (cleanup e).1 ∧ v = (cleanup e).2 := by
            rw [h]; exact ⟨rfl, rfl⟩
          exact ⟨by simp, Or.inr (Or.inl ⟨by simp, by simp⟩)⟩
        · rw [if_neg hc] at h
          simp only [Option.some.injEq, Prod.mk.injEq] at h
          obtain ⟨h1, h2⟩ := h
          subst h1; subst h2
          refine ⟨by simp, Or.inl ⟨by simp, ?_⟩⟩
          rw [nextPub_startPlay]
          simp [nextPub, hp]
  | playEnded =>
    simp only [step] at h
    cases hp : e.phase with
    | idle => rw [hp] at h; simp at h
    | awaitSynth i => rw [hp] at h; simp at h
    | awaitPlay i b =>
      rw [hp] at h
      simp only [Option.some.injEq] at h
      have hs := iterate_spec { e with audioSet := false } (i + 1)
      rw [hp, h] at hs
      simp at hs
      refine ⟨hs.1, ?_⟩
      rcases hs.2 with ⟨hv, hnp⟩ | ⟨hv, hnp, hlt⟩
      · exact Or.inr (Or.inl ⟨hv, hnp⟩)
      · refine Or.inr (Or.inr ?_)
        rw [show nextPub e = i + 1 by simp [nextPub, hp]]
        exact ⟨hv, hnp, hlt⟩
  | playErr =>
    simp only [step] at h
    cases hp : e.phase with
    | idle => rw [hp] at h; simp at h
    | awaitSynth i => rw [hp] at h; simp at h
    | awaitPlay i b =>
      rw [hp] at h
      cases b with
      | false => simp at h
      | true =>
        simp only [if_true] at h
        by_cases hc : e.cancelled = true
        · rw [if_pos hc] at h
          simp only [Option.some.injEq] at h
          have hs := iterate_spec { e with audioSet := false } (i + 1)
          rw [hp, h] at hs
          simp at hs
          refine ⟨hs.1, ?_⟩
          rcases hs.2 with ⟨hv, hnp⟩ | ⟨hv, hnp, hlt⟩
          · exact Or.inr (Or.inl ⟨hv, hnp⟩)
          · refine Or.inr (Or.inr ?_)
            rw [show nextPub e = i + 1 by simp [nextPub, hp]]
            exact ⟨hv, hnp, hlt⟩
        · rw [if_neg hc] at h
          simp only [Option.some.injEq, Prod.mk.injEq] at h
          obtain ⟨h1, h2⟩ := h
          subst h1; subst h2
          exact ⟨by simp, Or.inr (Or.inl ⟨by simp, by simp⟩)⟩
  | prefetchSettle id ok =>
    simp only [step] at h
    split_ifs at h with hmem hok hc
    · simp only [Option.some.injEq, Prod.mk.injEq] at h
      obtain ⟨h1, h2⟩ := h
      subst h1; subst h2
      exact ⟨rfl, Or.inl ⟨by simp, nextPub_congr _ _ rfl rfl⟩⟩
    · simp only [Option.some.injEq, Prod.mk.injEq] at h
      obtain ⟨h1, h2⟩ := h
      subst h1; subst h2
      exact ⟨rfl, Or.inl ⟨by simp, nextPub_congr _ _ rfl rfl⟩⟩
    · simp only [Option.some.injEq, Prod.mk.injEq] at h
      obtain ⟨h1, h2⟩ := h
      subst h1; subst h2
      exact ⟨rfl, Or.inl ⟨by simp, nextPub_congr _ _ rfl rfl⟩⟩
  | stop =>
    simp only [step] at h
    split_ifs at h with hsp
    simp only [Option.some.injEq, Prod.mk.injEq] at h
    obtain ⟨h1, h2⟩ := h
    subst h1; subst h2
    exact ⟨rfl, Or.inl ⟨by simp, nextPub_congr _ _ rfl rfl⟩⟩
  | reset =>
    simp only [step, Option.some.injEq, Prod.mk.injEq] at h
    obtain ⟨h1, h2⟩ := h
    subst h1; subst h2
    exact ⟨rfl, Or.inl ⟨by simp, nextPub_congr _ _ rfl rfl⟩⟩
  | extStart =>
    simp only [step] at h
    split_ifs at h with hsp
    simp only [Option.some.injEq, Prod.mk.injEq] at h
    obtain ⟨h1, h2⟩ := h
    subst h1; subst h2
    exact ⟨rfl, Or.inl ⟨by simp, nextPub_congr _ _ rfl rfl⟩⟩

/-- Trace-level publication discipline: from any suspension point the
indices published by the rest of the run are consecutive starting at the
next index, and stay below the segment count. -/
theorem run_pub (acts : List Action) :
    ∀ e : Engine, nextPub e ≤ e.n →
      ∃ k, pubIdx (run e acts).2 = consecFrom (nextPub e) k ∧ nextPub e + k ≤ e.n := by
  induction acts with
  | nil =>
    intro e he
    exact ⟨0, by simp [run], by simpa using he⟩
  | cons a as ih =>
    intro e he
    rcases hs : step e a with _ | ⟨e1, v⟩
    · simpa [run, hs] using ih e he
    · obtain ⟨hn, hcase⟩ := step_pub_spec e a e1 v hs
      rcases hcase with ⟨hv, hnp⟩ | ⟨hv, hnp⟩ | ⟨hv, hnp, hlt⟩
      · obtain ⟨k, hpk, hbk⟩ := ih e1 (by rw [hnp, hn]; exact he)
        refine ⟨k, ?_, ?_⟩
        · simp [run, hs, hv, hpk, hnp]
        · rw [hnp, hn] at hbk; exact hbk
      · obtain ⟨k, hpk, hbk⟩ := ih e1 (le_of_eq (by rw [hnp, hn]))
        have hk0 : k = 0 := by
          rw [hnp, hn] at hbk; omega
        subst hk0
        refine ⟨0, ?_, by simpa using he⟩
        simp [run, hs, hv, hpk, hnp]
      · obtain ⟨k, hpk, hbk⟩ := ih e1 (by rw [hnp, hn]; exact hlt)
        refine ⟨k + 1, ?_, ?_⟩
        · simp [run, hs, hv, hpk, hnp]
        · rw [hnp, hn] at hbk; omega

/-- C1: For every playback session started at index `s` over `n` segments,
the sequence of now-playing indices published to the UI via
`setSpeakingSentenceId` is exactly `s, s+1, s+2, ...`: consecutive,
strictly increasing by one, each value published exactly once, with every
published index below `n`.  This holds for every interleaving of promise
settlements, user stop/reset clicks and concurrent restarts. -/
theorem session_publishes_consecutive (n s : Nat) (acts : List Action) :
    pubIdx (runSession n s acts).2 =
      consecFrom s (pubIdx (runSession n s acts).2).length ∧
    ∀ j ∈ pubIdx (runSession n s acts).2, j < n := by
  by_cases hsn : s < n
  · have hss : speakSentences (initEngine n) s =
        iterate { initEngine n with cancelled := false, speaking := true } s := by
      unfold speakSentences
      rw [if_pos (show s < (initEngine n).n from hsn)]
    obtain ⟨hp1, hp2, hp3⟩ :=
      iterate_pub { initEngine n with cancelled := false, speaking := true } s rfl hsn
    obtain ⟨k, hk, hb⟩ := run_pub acts
      (iterate { initEngine n with cancelled := false, speaking := true } s).1
      (by rw [hp2, hp3]; exact hsn)
    rw [hp2] at hk
    rw [hp2, hp3] at hb
    have hcn : ({ initEngine n with cancelled := false, speaking := true } : Engine).n = n := rfl
    rw [hcn] at hb
    have htot : pubIdx (runSession n s acts).2 = consecFrom s (k + 1) := by
      simp only [runSession]
      rw [hss]
      simp [hp1, hk]
    refine ⟨?_, ?_⟩
    · rw [htot, length_consecFrom]
    · intro j hj
      rw [htot] at hj
      have := mem_consecFrom (k + 1) s hj
      omega
  · have hss : speakSentences (initEngine n) s =
        ({ initEngine n with speaking := false, nowPlaying := none }, [Ev.publishNone]) := by
      unfold speakSentences
      rw [if_neg (show ¬ s < (initEngine n).n from hsn)]
    have hnp : nextPub { initEngine n with speaking := false, nowPlaying := none } =
        ({ initEngine n with speaking := false, nowPlaying := none } : Engine).n := rfl
    obtain ⟨k, hk, hb⟩ := run_pub acts
      { initEngine n with speaking := false, nowPlaying := none } (le_of_eq hnp)
    rw [hnp] at hb
    have hk0 : k = 0 := by omega
    subst hk0
    have htot : pubIdx (runSession n s acts).2 = [] := by
      simp only [runSession]
      rw [hss]
      simp [hk]
    rw [htot]
    exact ⟨rfl, by simp⟩

theorem iterate_cancelled_true (e : Engine) (i : Nat) (hc : e.cancelled = true) :
    iterate e i = cleanup e := by
  unfold iterate
  rw [if_pos hc]

/-- While the cancellation flag is set, any step other than a concurrent
restart keeps it set, never grows the cache, and emits no
forward-progress event. -/
theorem step_cancelled_inv (e : Engine) (a : Action) (e1 : Engine) (v : List Ev)
    (h : step e a = some (e1, v)) (hc : e.cancelled = true)
    (hna : a ≠ Action.extStart) :
    e1.cancelled = true ∧ e1.cache ⊆ e.cache ∧ v.filter attemptEv = [] := by
  cases a with
  | synthSettle ok =>
    simp only [step] at h
    cases hp : e.phase with
    | idle => rw [hp] at h; simp at h
    | awaitPlay i b => rw [hp] at h; simp at h
    | awaitSynth i =>
      rw [hp] at h
      cases ok with
      | false =>
        simp only [Bool.false_eq_true, if_false, Option.some.injEq, Prod.mk.injEq] at h
        obtain ⟨h1, h2⟩ := h
        subst h1; subst h2
        exact ⟨hc, by simp, rfl⟩
      | true =>
        simp only [if_true] at h
        rw [if_pos hc] at h
        simp only [Option.some.injEq] at h
        obtain ⟨h1, h2⟩ := Prod.ext_iff.1 h
        dsimp only at h1 h2
        subst h1; subst h2
        exact ⟨by simp [hc], by simp, rfl⟩
  | playEnded =>
    simp only [step] at h
    cases hp : e.phase with
    | idle => rw [hp] at h; simp at h
    | awaitSynth i => rw [hp] at h; simp at h
    | awaitPlay i b =>
      rw [hp] at h
      simp only [Option.some.injEq] at h
      rw [iterate_cancelled_true _ _ (by simpa using hc)] at h
      obtain ⟨h1, h2⟩ := Prod.ext_iff.1 h
      dsimp only at h1 h2
      subst h1; subst h2
      exact ⟨by simp [hc], by simp, rfl⟩
  | playErr =>
    simp only [step] at h
    cases hp : e.phase with
    | idle => rw [hp] at h; simp at h
    | awaitSynth i => rw [hp] at h; simp at h
    | awaitPlay i b =>
      rw [hp] at h
      cases b with
      | false => simp at h
      | true =>
        simp only [if_true] at h
        rw [if_pos hc] at h
        simp only [Option.some.injEq] at h
        rw [iterate_cancelled_true _ _ (by simpa using hc)] at h
        obtain ⟨h1, h2⟩ := Prod.ext_iff.1 h
        dsimp only at h1 h2
        subst h1; subst h2
        exact ⟨by simp [hc], by simp, rfl⟩
  | prefetchSettle id ok =>
    simp only [step] at h
    split_ifs at h with hmem hok
    · simp only [Option.some.injEq] at h
      obtain ⟨h1, h2⟩ := Prod.ext_iff.1 h
      dsimp only at h1 h2
      subst h1; subst h2
      exact ⟨by simp [hc], by simp, rfl⟩
    · simp only [Option.some.injEq] at h
      obtain ⟨h1, h2⟩ := Prod.ext_iff.1 h
      dsimp only at h1 h2
      subst h1; subst h2
      exact ⟨by simp [hc], by simp, rfl⟩
  | stop =>
    simp only [step] at h
    split_ifs at h with hsp
    simp only [Option.some.injEq] at h
    obtain ⟨h1, h2⟩ := Prod.ext_iff.1 h
    dsimp only at h1 h2
    subst h1; subst h2
    exact ⟨rfl, by simp, rfl⟩
  | reset =>
    simp only [step, Option.some.injEq] at h
    obtain ⟨h1, h2⟩ := Prod.ext_iff.1 h
    dsimp only at h1 h2
    subst h1; subst h2
    exact ⟨rfl, by simp, rfl⟩
  | extStart => exact absurd rfl hna

/-- Trace version of `step_cancelled_inv`. -/
theorem run_cancelled_inv (acts : List Action) :
    ∀ e : Engine, e.cancelled = true → Action.extStart ∉ acts →
      (run e acts).1.cancelled = true ∧ (run e acts).1.cache ⊆ e.cache ∧
      (run e acts).2.filter attemptEv = [] := by
  induction acts with
  | nil => intro e hc _; exact ⟨hc, by simp [run], by simp [run]⟩
  | cons a as ih =>
    intro e hc hni
    have hna : a ≠ Action.extStart := by
      intro hEq; exact hni (by simp [hEq])
    have hni2 : Action.extStart ∉ as := fun hmem => hni (by simp [hmem])
    rcases hs : step e a with _ | ⟨e1, v⟩
    · simpa [run, hs] using ih e hc hni2
    · obtain ⟨hc1, hsub1, hf1⟩ := step_cancelled_inv e a e1 v hs hc hna
      obtain ⟨hc2, hsub2, hf2⟩ := ih e1 hc1 hni2
      simp only [run, hs]
      exact ⟨hc2, hsub2.trans hsub1, by simp [List.filter_append, hf1, hf2]⟩

/-- C2, counterexample: the claim fails in the run where a new playback
session starts between `clear()` and the resolution of the stale
request.  Session over 3 segments, start 0: the prefetch request for
segment 1 is in flight; `handleReset` sets the flag and clears the cache
and in-flight set; a new session then starts (its synchronous prefix
clears the cancellation flag); when the stale request now resolves, its
`.then` handler sees the flag down and inserts the stale audio into the
cache. -/
theorem stale_prefetch_inserted_after_restart :
    (runSession 3 0 [Action.reset]).1.cancelled = true ∧
    (runSession 3 0 [Action.reset]).1.cache = [] ∧
    1 ∈ (runSession 3 0 [Action.reset]).1.pending ∧
    (runSession 3 0
        [Action.reset, Action.extStart, Action.prefetchSettle 1 true]).1.cache = [1] := by
  decide

/-- C2, amended: after `clear()` (reset), an in-flight request that
resolves while the cancellation flag is still set is discarded: as long
as no new session has started (no `extStart`), no step — in particular
no prefetch resolution — ever inserts anything into the cache. -/
theorem stale_prefetch_rejected_while_cancelled (e : Engine) (acts : List Action)
    (hc : e.cancelled = true) (hext : Action.extStart ∉ acts) :
    (run e acts).1.cache ⊆ e.cache :=
  (run_cancelled_inv acts e hc hext).2.1

theorem stale_prefetch_rejected_while_cancelled_witness :
    (run ((runSession 3 0 [Action.reset]).1) [Action.prefetchSettle 1 true]).1.cache ⊆
      ((runSession 3 0 [Action.reset]).1).cache :=
  stale_prefetch_rejected_while_cancelled _ _ (by decide) (by decide)

/-- C4, counterexample: cancellation is requested while segment 0 is
active (the driver is awaiting its inline synthesis), yet segment 1 is
later published and played by the same `speakSentences` invocation: a
new session start (`extStart`) clears the shared flag before the old
driver observes it, so the old driver resumes and proceeds past the
cancellation point. -/
theorem cancelled_session_revived_plays_later_segment :
    (runSession 2 0 [Action.stop]).1.cancelled = true ∧
    (runSession 2 0 [Action.stop]).1.phase = Phase.awaitSynth 0 ∧
    Ev.publish 1 ∈ (runSession 2 0 [Action.stop, Action.extStart,
      Action.prefetchSettle 1 true, Action.synthSettle true, Action.playEnded]).2 ∧
    Ev.playStart 1 ∈ (runSession 2 0 [Action.stop, Action.extStart,
      Action.prefetchSettle 1 true, Action.synthSettle true, Action.playEnded]).2 := by
  decide

/-- C4, amended: once the cancellation flag is set, as long as it stays
set (no concurrent session start clears it), the session makes no further
forward progress at all: no index is published, no inline synthesis is
issued, and no playback is started — in particular no segment after the
one active at cancellation time is synthesized inline or played. -/
theorem cancellation_halts_progress_while_set (e : Engine) (acts : List Action)
    (j : Nat) (hc : e.cancelled = true) (hext : Action.extStart ∉ acts) :
    Ev.publish j ∉ (run e acts).2 ∧ Ev.reqInline j ∉ (run e acts).2 ∧
    Ev.playStart j ∉ (run e acts).2 := by
  have hf := (run_cancelled_inv acts e hc hext).2.2
  refine ⟨?_, ?_, ?_⟩ <;> intro hmem
  · have : Ev.publish j ∈ (run e acts).2.filter attemptEv :=
      List.mem_filter.2 ⟨hmem, rfl⟩
    rw [hf] at this
    exact absurd this (List.not_mem_nil _)
  · have : Ev.reqInline j ∈ (run e acts).2.filter attemptEv :=
      List.mem_filter.2 ⟨hmem, rfl⟩
    rw [hf] at this
    exact absurd this (List.not_mem_nil _)
  · have : Ev.playStart j ∈ (run e acts).2.filter attemptEv :=
      List.mem_filter.2 ⟨hmem, rfl⟩
    rw [hf] at this
    exact absurd this (List.not_mem_nil _)

theorem cancellation_halts_progress_while_set_witness :
    Ev.publish 1 ∉ (run ((runSession 2 0 [Action.stop]).1)
      [Action.synthSettle true, Action.playEnded]).2 ∧
    Ev.reqInline 1 ∉ (run ((runSession 2 0 [Action.stop]).1)
      [Action.synthSettle true, Action.playEnded]).2 ∧
    Ev.playStart 1 ∉ (run ((runSession 2 0 [Action.stop]).1)
      [Action.synthSettle true, Action.playEnded]).2 :=
  cancellation_halts_progress_while_set _ _ 1 (by decide) (by decide)

/-- "One outstanding prefetch request per index": the pending multiset
has no duplicates, and (unless the session is cancelled) every
outstanding request is still marked in the in-flight set — the guard
that prevents the prefetch block from issuing a duplicate. -/
def PendInv (e : Engine) : Prop :=
  e.pending.Nodup ∧ ∀ id ∈ e.pending, e.cancelled = true ∨ id ∈ e.preloading

/-- "Every in-flight mark has an outstanding request": the in-flight set
has no duplicates and is contained in the pending multiset. -/
def LoadInv (e : Engine) : Prop :=
  e.preloading.Nodup ∧ e.preloading ⊆ e.pending

theorem PendInv_of_eq {e1 e2 : Engine} (hp : e2.pending = e1.pending)
    (hl : e2.preloading = e1.preloading) (hcnc : e2.cancelled = e1.cancelled)
    (h : PendInv e1) : PendInv e2 := by
  unfold PendInv at h ⊢
  rw [hp, hl, hcnc]
  exact h

theorem LoadInv_of_eq {e1 e2 : Engine} (hp : e2.pending = e1.pending)
    (hl : e2.preloading = e1.preloading) (h : LoadInv e1) : LoadInv e2 := by
  unfold LoadInv at h ⊢
  rw [hp, hl]
  exact h

/-- `ensure` either leaves the two request sets unchanged, or pushes a
fresh index (not cached, not in flight) onto both. -/
theorem ensure_shape (e : Engine) (id0 : Nat) :
    ((ensure e id0).1.pending = e.pending ∧
     (ensure e id0).1.preloading = e.preloading) ∨
    (id0 ∉ e.cache ∧ id0 ∉ e.preloading ∧
     (ensure e id0).1.pending = id0 :: e.pending ∧
     (ensure e id0).1.preloading = id0 :: e.preloading) := by
  unfold ensure
  split_ifs with h1 h2
  · exact Or.inr ⟨h2.1, h2.2, rfl, rfl⟩
  · exact Or.inl ⟨rfl, rfl⟩
  · exact Or.inl ⟨rfl, rfl⟩

theorem ensure_PendInv (e : Engine) (id0 : Nat) (hc : e.cancelled = false)
    (h : PendInv e) : PendInv (ensure e id0).1 := by
  rcases ensure_shape e id0 with ⟨hp, hl⟩ | ⟨hnc, hnl, hp, hl⟩
  · exact PendInv_of_eq hp hl (by simp) h
  · obtain ⟨hnd, haux⟩ := h
    constructor
    · rw [hp]
      refine List.Nodup.cons ?_ hnd
      intro hmem
      rcases haux id0 hmem with hcT | hmemL
      · rw [hc] at hcT; exact absurd hcT (by simp)
      · exact hnl hmemL
    · intro id hid
      rw [hp] at hid
      rw [hl, ensure_fst_cancelled]
      rcases List.mem_cons.1 hid with rfl | hid
      · exact Or.inr (List.mem_cons_self _ _)
      · rcases haux id hid with hcT | hmemL
        · exact Or.inl hcT
        · exact Or.inr (List.mem_cons_of_mem _ hmemL)

theorem ensure_LoadInv (e : Engine) (id0 : Nat) (h : LoadInv e) :
    LoadInv (ensure e id0).1 := by
  rcases ensure_shape e id0 with ⟨hp, hl⟩ | ⟨hnc, hnl, hp, hl⟩
  · exact LoadInv_of_eq hp hl h
  · obtain ⟨hnd, hsub⟩ := h
    constructor
    · rw [hl]
      exact List.Nodup.cons hnl hnd
    · rw [hl, hp]
      intro x hx
      rcases List.mem_cons.1 hx with rfl | hx
      · exact List.mem_cons_self _ _
      · exact List.mem_cons_of_mem _ (hsub hx)

theorem iterate_PendInv (e : Engine) (i : Nat) (h : PendInv e) :
    PendInv (iterate e i).1 := by
  cases hb : e.cancelled with
  | true =>
    rw [iterate_cancelled_true e i hb]
    exact h
  | false =>
    simp only [iterate]
    rw [if_neg (show ¬ e.cancelled = true by simp [hb])]
    split_ifs with hn hcache
    · exact PendInv_of_eq (by simp) (by simp) (by simp)
        (ensure_PendInv (ensure { e with nowPlaying := some i } (i + 1)).1 (i + 2)
          (by simp [hb])
          (ensure_PendInv { e with nowPlaying := some i } (i + 1) hb h))
    · exact ensure_PendInv (ensure { e with nowPlaying := some i } (i + 1)).1 (i + 2)
        (by simp [hb])
        (ensure_PendInv { e with nowPlaying := some i } (i + 1) hb h)
    · exact h

theorem iterate_LoadInv (e : Engine) (i : Nat) (h : LoadInv e) :
    LoadInv (iterate e i).1 := by
  cases hb : e.cancelled with
  | true =>
    rw [iterate_cancelled_true e i hb]
    exact h
  | false =>
    simp only [iterate]
    rw [if_neg (show ¬ e.cancelled = true by simp [hb])]
    split_ifs with hn hcache
    · exact LoadInv_of_eq (by simp) (by simp)
        (ensure_LoadInv (ensure { e with nowPlaying := some i } (i + 1)).1 (i + 2)
          (ensure_LoadInv { e with nowPlaying := some i } (i + 1) h))
    · exact ensure_LoadInv (ensure { e with nowPlaying := some i } (i + 1)).1 (i + 2)
        (ensure_LoadInv { e with nowPlaying := some i } (i + 1) h)
    · exact h

theorem step_PendInv (e : Engine) (a : Action) (e1 : Engine) (v : List Ev)
    (h : step e a = some (e1, v)) (hna : a ≠ Action.extStart)
    (hinv : PendInv e) : PendInv e1 := by
  cases a with
  | synthSettle ok =>
    simp only [step] at h
    cases hp : e.phase with
    | idle => rw [hp] at h; simp at h
    | awaitPlay i b => rw [hp] at h; simp at h
    | awaitSynth i =>
      rw [hp] at h
      cases ok with
      | false =>
        simp only [Bool.false_eq_true, if_false, Option.some.injEq, Prod.mk.injEq] at h
        obtain ⟨h1, h2⟩ := h
        subst h1
        exact hinv
      | true =>
        simp only [if_true] at h
        by_cases hc : e.cancelled = true
        · rw [if_pos hc] at h
          simp only [Option.some.injEq] at h
          obtain ⟨h1, h2⟩ := Prod.ext_iff.1 h
          dsimp only at h1 h2
          subst h1
          exact hinv
        · rw [if_neg hc] at h
          simp only [Option.some.injEq, Prod.mk.injEq] at h
          obtain ⟨h1, h2⟩ := h
          subst h1
          exact PendInv_of_eq (by simp) (by simp) (by simp) hinv
  | playEnded =>
    simp only [step] at h
    cases hp : e.phase with
    | idle => rw [hp] at h; simp at h
    | awaitSynth i => rw [hp] at h; simp at h
    | awaitPlay i b =>
      rw [hp] at h
      simp only [Option.some.injEq] at h
      have hit := iterate_PendInv { e with audioSet := false, phase := Phase.awaitPlay i b }
        (i + 1) hinv
      rw [h] at hit
      exact hit
  | playErr =>
    simp only [step] at h
    cases hp : e.phase with
    | idle => rw [hp] at h; simp at h
    | awaitSynth i => rw [hp] at h; simp at h
    | awaitPlay i b =>
      rw [hp] at h
      cases b with
      | false => simp at h
      | true =>
        simp only [if_true] at h
        by_cases hc : e.cancelled = true
        · rw [if_pos hc] at h
          simp only [Option.some.injEq] at h
          have hit := iterate_PendInv
            { e with audioSet := false, phase := Phase.awaitPlay i true } (i + 1) hinv
          rw [h] at hit
          exact hit
        · rw [if_neg hc] at h
          simp only [Option.some.injEq, Prod.mk.injEq] at h
          obtain ⟨h1, h2⟩ := h
          subst h1
          exact hinv
  | prefetchSettle id ok =>
    simp only [step] at h
    obtain ⟨hnd, haux⟩ := hinv
    split_ifs at h with hmem hok hcc <;>
    · simp only [Option.some.injEq] at h
      obtain ⟨h1, h2⟩ := Prod.ext_iff.1 h
      dsimp only at h1 h2
      subst h1
      refine ⟨by simpa using hnd.erase id, ?_⟩
      intro id2 hid2
      simp only at hid2 ⊢
      have hid2p : id2 ∈ e.pending := List.mem_of_mem_erase hid2
      rcases haux id2 hid2p with hcT | hmemL
      · exact Or.inl hcT
      · have hne : id2 ≠ id := (hnd.mem_erase_iff.1 hid2).1
        exact Or.inr ((List.mem_erase_of_ne hne).2 hmemL)
  | stop =>
    simp only [step] at h
    split_ifs at h with hsp
    simp only [Option.some.injEq, Prod.mk.injEq] at h
    obtain ⟨h1, h2⟩ := h
    subst h1
    obtain ⟨hnd, _⟩ := hinv
    exact ⟨by simpa using hnd, fun id hid => Or.inl rfl⟩
  | reset =>
    simp only [step, Option.some.injEq, Prod.mk.injEq] at h
    obtain ⟨h1, h2⟩ := h
    subst h1
    obtain ⟨hnd, _⟩ := hinv
    exact ⟨by simpa using hnd, fun id hid => Or.inl rfl⟩
  | extStart => exact absurd rfl hna

theorem run_PendInv (acts : List Action) :
    ∀ e : Engine, PendInv e → Action.extStart ∉ acts →
      PendInv (run e acts).1 := by
  induction acts with
  | nil => intro e hinv _; simpa [run] using hinv
  | cons a as ih =>
    intro e hinv hni
    have hna : a ≠ Action.extStart := by
      intro hEq; exact hni (by simp [hEq])
    have hni2 : Action.extStart ∉ as := fun hmem => hni (by simp [hmem])
    rcases hs : step e a with _ | ⟨e1, v⟩
    · simpa [run, hs] using ih e hinv hni2
    · simp only [run, hs]
      exact ih e1 (step_PendInv e a e1 v hs hna hinv) hni2

theorem step_LoadInv (e : Engine) (a : Action) (e1 : Engine) (v : List Ev)
    (h : step e a = some (e1, v)) (hinv : LoadInv e) : LoadInv e1 := by
  cases a with
  | synthSettle ok =>
    simp only [step] at h
    cases hp : e.phase with
    | idle => rw [hp] at h; simp at h
    | awaitPlay i b => rw [hp] at h; simp at h
    | awaitSynth i =>
      rw [hp] at h
      cases ok with
      | false =>
        simp only [Bool.false_eq_true, if_false, Option.some.injEq, Prod.mk.injEq] at h
        obtain ⟨h1, h2⟩ := h
        subst h1
        exact hinv
      | true =>
        simp only [if_true] at h
        by_cases hc : e.cancelled = true
        · rw [if_pos hc] at h
          simp only [Option.some.injEq] at h
          obtain ⟨h1, h2⟩ := Prod.ext_iff.1 h
          dsimp only at h1 h2
          subst h1
          exact hinv
        · rw [if_neg hc] at h
          simp only [Option.some.injEq, Prod.mk.injEq] at h
          obtain ⟨h1, h2⟩ := h
          subst h1
          exact LoadInv_of_eq (by simp) (by simp) hinv
  | playEnded =>
    simp only [step] at h
    cases hp : e.phase with
    | idle => rw [hp] at h; simp at h
    | awaitSynth i => rw [hp] at h; simp at h
    | awaitPlay i b =>
      rw [hp] at h
      simp only [Option.some.injEq] at h
      have hit := iterate_LoadInv { e with audioSet := false, phase := Phase.awaitPlay i b }
        (i + 1) hinv
      rw [h] at hit
      exact hit
  | playErr =>
    simp only [step] at h
    cases hp : e.phase with
    | idle => rw [hp] at h; simp at h
    | awaitSynth i => rw [hp] at h; simp at h
    | awaitPlay i b =>
      rw [hp] at h
      cases b with
      | false => simp at h
      | true =>
        simp only [if_true] at h
        by_cases hc : e.cancelled = true
        · rw [if_pos hc] at h
          simp only [Option.some.injEq] at h
          have hit := iterate_LoadInv
            { e with audioSet := false, phase := Phase.awaitPlay i true } (i + 1) hinv
          rw [h] at hit
          exact hit
        · rw [if_neg hc] at h
          simp only [Option.some.injEq, Prod.mk.injEq] at h
          obtain ⟨h1, h2⟩ := h
          subst h1
          exact hinv
  | prefetchSettle id ok =>
    simp only [step] at h
    obtain ⟨hnd, hsub⟩ := hinv
    split_ifs at h with hmem hok hcc <;>
    · simp only [Option.some.injEq] at h
      obtain ⟨h1, h2⟩ := Prod.ext_iff.1 h
      dsimp only at h1 h2
      subst h1
      refine ⟨by simpa using hnd.erase id, ?_⟩
      intro x hx
      simp only at hx ⊢
      have hxl : x ∈ e.preloading := List.mem_of_mem_erase hx
      have hne : x ≠ id := (hnd.mem_erase_iff.1 hx).1
      exact (List.mem_erase_of_ne hne).2 (hsub hxl)
  | stop =>
    simp only [step] at h
    split_ifs at h with hsp
    simp only [Option.some.injEq, Prod.mk.injEq] at h
    obtain ⟨h1, h2⟩ := h
    subst h1
    exact hinv
  | reset =>
    simp only [step, Option.some.injEq, Prod.mk.injEq] at h
    obtain ⟨h1, h2⟩ := h
    subst h1
    exact ⟨by simp, by simp⟩
  | extStart =>
    simp only [step] at h
    split_ifs at h with hsp
    simp only [Option.some.injEq, Prod.mk.injEq] at h
    obtain ⟨h1, h2⟩ := h
    subst h1
    exact hinv

theorem run_LoadInv (acts : List Action) :
    ∀ e : Engine, LoadInv e → LoadInv (run e acts).1 := by
  induction acts with
  | nil => intro e hinv; simpa [run] using hinv
  | cons a as ih =>
    intro e hinv
    rcases hs : step e a with _ | ⟨e1, v⟩
    · simpa [run, hs] using ih e hinv
    · simp only [run, hs]
      exact ih e1 (step_LoadInv e a e1 v hs hinv)

@[simp] theorem cleanup_fst_speaking (e : Engine) : (cleanup e).1.speaking = false := rfl

@[simp] theorem cleanup_fst_nowPlaying (e : Engine) : (cleanup e).1.nowPlaying = none := rfl

/-- Once the driver has returned (phase `idle`), no step emits any driver
event: the remaining enabled actions are environment bookkeeping only. -/
theorem step_idle (e : Engine) (a : Action) (e1 : Engine) (v : List Ev)
    (h : step e a = some (e1, v)) (hp : e.phase = Phase.idle) :
    e1.phase = Phase.idle ∧ v.filter driverEv = [] := by
  cases a with
  | synthSettle ok => simp only [step] at h; rw [hp] at h; simp at h
  | playEnded => simp only [step] at h; rw [hp] at h; simp at h
  | playErr => simp only [step] at h; rw [hp] at h; simp at h
  | prefetchSettle id ok =>
    simp only [step] at h
    split_ifs at h with hmem hok hcc
    · simp only [Option.some.injEq] at h
      obtain ⟨h1, h2⟩ := Prod.ext_iff.1 h
      dsimp only at h1 h2
      subst h1; subst h2
      exact ⟨hp, rfl⟩
    · simp only [Option.some.injEq] at h
      obtain ⟨h1, h2⟩ := Prod.ext_iff.1 h
      dsimp only at h1 h2
      subst h1; subst h2
      exact ⟨hp, rfl⟩
    · simp only [Option.some.injEq] at h
      obtain ⟨h1, h2⟩ := Prod.ext_iff.1 h
      dsimp only at h1 h2
      subst h1; subst h2
      exact ⟨hp, rfl⟩
  | stop =>
    simp only [step] at h
    split_ifs at h with hsp
    simp only [Option.some.injEq, Prod.mk.injEq] at h
    obtain ⟨h1, h2⟩ := h
    subst h1; subst h2
    exact ⟨hp, rfl⟩
  | reset =>
    simp only [step, Option.some.injEq, Prod.mk.injEq] at h
    obtain ⟨h1, h2⟩ := h
    subst h1; subst h2
    exact ⟨hp, rfl⟩
  | extStart =>
    simp only [step] at h
    split_ifs at h with hsp
    simp only [Option.some.injEq, Prod.mk.injEq] at h
    obtain ⟨h1, h2⟩ := h
    subst h1; subst h2
    exact ⟨hp, rfl⟩

/-- Trace version of `step_idle`. -/
theorem run_idle (acts : List Action) :
    ∀ e : Engine, e.phase = Phase.idle →
      (run e acts).1.phase = Phase.idle ∧ (run e acts).2.filter driverEv = [] := by
  induction acts with
  | nil => intro e hp; exact ⟨by simpa [run] using hp, by simp [run]⟩
  | cons a as ih =>
    intro e hp
    rcases hs : step e a with _ | ⟨e1, v⟩
    · simpa [run, hs] using ih e hp
    · obtain ⟨hp1, hf1⟩ := step_idle e a e1 v hs hp
      obtain ⟨hp2, hf2⟩ := ih e1 hp1
      simp only [run, hs]
      exact ⟨hp2, by simp [List.filter_append, hf1, hf2]⟩

/-- C3, counterexample: after segment 0 is synthesized and played, the
driver reaches segment 1 while the prefetch request for 1 issued during
iteration 0 is still in flight (not yet cached).  The driver checks only
the cache, not the in-flight set, and issues a second, inline synthesis
request for 1: the trace contains both `reqPrefetch 1` and `reqInline 1`
with the prefetch still pending, so two synthesis requests for index 1
are outstanding simultaneously. -/
theorem driver_duplicates_inflight_request :
    (runSession 2 0 [Action.synthSettle true, Action.playEnded]).1.phase =
      Phase.awaitSynth 1 ∧
    1 ∈ (runSession 2 0 [Action.synthSettle true, Action.playEnded]).1.pending ∧
    1 ∉ (runSession 2 0 [Action.synthSettle true, Action.playEnded]).1.cache ∧
    Ev.reqPrefetch 1 ∈ (runSession 2 0 [Action.synthSettle true, Action.playEnded]).2 ∧
    Ev.reqInline 1 ∈ (runSession 2 0 [Action.synthSettle true, Action.playEnded]).2 := by
  decide

/-- C3, amended: the in-flight set deduplicates only prefetch requests
against each other: within a session with no concurrent restart, at most
one background prefetch request per index is ever outstanding (the
pending multiset stays duplicate-free).  The driver's inline fetch is
not checked against the in-flight set and can run concurrently with a
pending prefetch for the same index (see the counterexample). -/
theorem prefetch_requests_deduplicated (e : Engine) (acts : List Action)
    (h1 : e.pending.Nodup)
    (h2 : ∀ id ∈ e.pending, e.cancelled = true ∨ id ∈ e.preloading)
    (hext : Action.extStart ∉ acts) :
    (run e acts).1.pending.Nodup :=
  (run_PendInv acts e ⟨h1, h2⟩ hext).1

theorem prefetch_requests_deduplicated_witness :
    (run ((runSession 3 0 []).1)
      [Action.prefetchSettle 1 true, Action.synthSettle true]).1.pending.Nodup :=
  prefetch_requests_deduplicated _ _ (by decide) (by decide) (by decide)

/-- C9, counterexample: index 1 is simultaneously in the cache and in
the in-flight (preloading) set.  The prefetch for 1 (issued at iteration
0) is still pending when the driver reaches segment 1; the driver
cache-misses, synthesizes 1 inline and caches it, while 1 is still
marked in-flight. -/
theorem cache_and_inflight_overlap :
    1 ∈ (runSession 2 0 [Action.synthSettle true, Action.playEnded,
          Action.synthSettle true]).1.cache ∧
    1 ∈ (runSession 2 0 [Action.synthSettle true, Action.playEnded,
          Action.synthSettle true]).1.preloading ∧
    1 ∈ (runSession 2 0 [Action.synthSettle true, Action.playEnded,
          Action.synthSettle true]).1.pending := by
  decide

/-- C9, amended: the cache/in-flight disjointness can be violated (see
the counterexample), but the in-flight set always consists of distinct
indices each of which has an outstanding prefetch request (in-flight ⊆
pending), so every overlap is resolved when that request settles and
removes the in-flight mark. -/
theorem inflight_subset_of_outstanding (e : Engine) (acts : List Action)
    (h1 : e.preloading.Nodup) (h2 : e.preloading ⊆ e.pending) :
    (run e acts).1.preloading.Nodup ∧
    (run e acts).1.preloading ⊆ (run e acts).1.pending :=
  run_LoadInv acts e ⟨h1, h2⟩

theorem inflight_subset_of_outstanding_witness :
    (run ((runSession 3 0 []).1) [Action.prefetchSettle 2 false]).1.preloading.Nodup ∧
    (run ((runSession 3 0 []).1) [Action.prefetchSettle 2 false]).1.preloading ⊆
      (run ((runSession 3 0 []).1) [Action.prefetchSettle 2 false]).1.pending :=
  inflight_subset_of_outstanding _ _ (by decide) (by decide)

/-- C5: a failure of the awaited call for the active segment — rejection
of the inline synthesis, or a playback error with the cancellation flag
down — runs the catch block: exactly one user-visible error notification
(`alert`) is emitted, the session ends (`isSpeaking` false,
`speakingSentenceId` null, driver idle), and no later segment is
attempted: the rest of the run publishes no index, issues no inline
synthesis, starts no playback and shows no further alert. -/
theorem active_failure_halts_session (e : Engine) (i : Nat) (a : Action)
    (acts : List Action) (hc : e.cancelled = false)
    (hfail : (e.phase = Phase.awaitSynth i ∧ a = Action.synthSettle false) ∨
             (e.phase = Phase.awaitPlay i true ∧ a = Action.playErr)) :
    stepEvs e a = [Ev.alertErr, Ev.publishNone] ∧
    (stepSt e a).phase = Phase.idle ∧
    (stepSt e a).speaking = false ∧
    (stepSt e a).nowPlaying = none ∧
    (run (stepSt e a) acts).2.filter driverEv = [] := by
  rcases hfail with ⟨hp, rfl⟩ | ⟨hp, rfl⟩
  · have hstep : step e (Action.synthSettle false) =
        some ((cleanup e).1, Ev.alertErr :: (cleanup e).2) := by
      simp [step, hp]
    refine ⟨by simp [stepEvs, hstep], by simp [stepSt, hstep],
      by simp [stepSt, hstep], by simp [stepSt, hstep], ?_⟩
    exact (run_idle acts _ (by simp [stepSt, hstep])).2
  · have hstep : step e Action.playErr =
        some ((cleanup { e with audioSet := false }).1,
          Ev.alertErr :: (cleanup { e with audioSet := false }).2) := by
      simp [step, hp, hc]
    refine ⟨by simp [stepEvs, hstep], by simp [stepSt, hstep],
      by simp [stepSt, hstep], by simp [stepSt, hstep], ?_⟩
    exact (run_idle acts _ (by simp [stepSt, hstep])).2

theorem active_failure_halts_session_witness :
    stepEvs ((runSession 2 0 []).1) (Action.synthSettle false) =
      [Ev.alertErr, Ev.publishNone] ∧
    (stepSt ((runSession 2 0 []).1) (Action.synthSettle false)).phase = Phase.idle ∧
    (stepSt ((runSession 2 0 []).1) (Action.synthSettle false)).speaking = false ∧
    (stepSt ((runSession 2 0 []).1) (Action.synthSettle false)).nowPlaying = none ∧
    (run (stepSt ((runSession 2 0 []).1) (Action.synthSettle false))
      [Action.prefetchSettle 1 false]).2.filter driverEv = [] :=
  active_failure_halts_session _ 0 _ [Action.prefetchSettle 1 false] (by decide)
    (Or.inl ⟨by decide, rfl⟩)

/-- Settling a pending prefetch request removes its index from both the
in-flight set and the pending multiset regardless of outcome; a failed
settlement leaves the cache and the driver untouched and only logs. -/
theorem prefetchSettle_state (e : Engine) (id : Nat) (ok : Bool)
    (hid : id ∈ e.pending) :
    (stepSt e (Action.prefetchSettle id ok)).preloading = e.preloading.erase id ∧
    (stepSt e (Action.prefetchSettle id ok)).pending = e.pending.erase id ∧
    (stepSt e (Action.prefetchSettle id ok)).phase = e.phase ∧
    (ok = false → (stepSt e (Action.prefetchSettle id ok)).cache = e.cache ∧
      stepEvs e (Action.prefetchSettle id ok) = [Ev.logErr id]) := by
  simp only [stepSt, stepEvs, step, if_pos hid]
  cases ok with
  | false => simp
  | true =>
    by_cases hcc : e.cancelled = true <;> simp [hcc]

/-- The driver never removes an in-flight mark: one loop iteration can
only add to the in-flight set. -/
theorem iterate_preloading_mono (e : Engine) (i : Nat) :
    e.preloading ⊆ (iterate e i).1.preloading := by
  cases hb : e.cancelled with
  | true =>
    rw [iterate_cancelled_true e i hb]
    exact fun x hx => hx
  | false =>
    simp only [iterate]
    rw [if_neg (show ¬ e.cancelled = true by simp [hb])]
    split_ifs with hn hcache
    · intro x hx
      rw [startPlay_fst_preloading]
      exact ensure_preloading_mono _ (i + 2) (ensure_preloading_mono _ (i + 1) hx)
    · intro x hx
      exact ensure_preloading_mono _ (i + 2) (ensure_preloading_mono _ (i + 1) hx)
    · exact fun x hx => hx

/-- An in-flight mark for `id` survives every step except the settlement
of `id`'s own request and `handleReset`: nothing else deletes from the
in-flight set. -/
theorem step_preserves_inflight (id : Nat) (e : Engine) (a : Action) (e1 : Engine)
    (v : List Ev) (h : step e a = some (e1, v)) (hnr : a ≠ Action.reset)
    (hna : ∀ b, a ≠ Action.prefetchSettle id b) (hin : id ∈ e.preloading) :
    id ∈ e1.preloading := by
  cases a with
  | synthSettle ok =>
    simp only [step] at h
    cases hp : e.phase with
    | idle => rw [hp] at h; simp at h
    | awaitPlay i b => rw [hp] at h; simp at h
    | awaitSynth i =>
      rw [hp] at h
      cases ok with
      | false =>
        simp only [Bool.false_eq_true, if_false, Option.some.injEq, Prod.mk.injEq] at h
        obtain ⟨h1, h2⟩ := h
        subst h1
        exact hin
      | true =>
        simp only [if_true] at h
        by_cases hc : e.cancelled = true
        · rw [if_pos hc] at h
          simp only [Option.some.injEq] at h
          obtain ⟨h1, h2⟩ := Prod.ext_iff.1 h
          dsimp only at h1 h2
          subst h1
          exact hin
        · rw [if_neg hc] at h
          simp only [Option.some.injEq, Prod.mk.injEq] at h
          obtain ⟨h1, h2⟩ := h
          subst h1
          simpa using hin
  | playEnded =>
    simp only [step] at h
    cases hp : e.phase with
    | idle => rw [hp] at h; simp at h
    | awaitSynth i => rw [hp] at h; simp at h
    | awaitPlay i b =>
      rw [hp] at h
      simp only [Option.some.injEq] at h
      have hmono := iterate_preloading_mono
        { e with audioSet := false, phase := Phase.awaitPlay i b } (i + 1)
      rw [h] at hmono
      exact hmono hin
  | playErr =>
    simp only [step] at h
    cases hp : e.phase with
    | idle => rw [hp] at h; simp at h
    | awaitSynth i => rw [hp] at h; simp at h
    | awaitPlay i b =>
      rw [hp] at h
      cases b with
      | false => simp at h
      | true =>
        simp only [if_true] at h
        by_cases hc : e.cancelled = true
        · rw [if_pos hc] at h
          simp only [Option.some.injEq] at h
          have hmono := iterate_preloading_mono
            { e with audioSet := false, phase := Phase.awaitPlay i true } (i + 1)
          rw [h] at hmono
          exact hmono hin
        · rw [if_neg hc] at h
          simp only [Option.some.injEq, Prod.mk.injEq] at h
          obtain ⟨h1, h2⟩ := h
          subst h1
          exact hin
  | prefetchSettle id2 ok2 =>
    have hne : id ≠ id2 := by
      intro hEq
      exact (hna ok2) (by rw [hEq])
    simp only [step] at h
    split_ifs at h with hmem hok hcc
    · simp only [Option.some.injEq] at h
      obtain ⟨h1, h2⟩ := Prod.ext_iff.1 h
      dsimp only at h1 h2
      subst h1
      simp only
      exact (List.mem_erase_of_ne hne).2 hin
    · simp only [Option.some.injEq] at h
      obtain ⟨h1, h2⟩ := Prod.ext_iff.1 h
      dsimp only at h1 h2
      subst h1
      simp only
      exact (List.mem_erase_of_ne hne).2 hin
    · simp only [Option.some.injEq] at h
      obtain ⟨h1, h2⟩ := Prod.ext_iff.1 h
      dsimp only at h1 h2
      subst h1
      simp only
      exact (List.mem_erase_of_ne hne).2 hin
  | stop =>
    simp only [step] at h
    split_ifs at h with hsp
    simp only [Option.some.injEq, Prod.mk.injEq] at h
    obtain ⟨h1, h2⟩ := h
    subst h1
    exact hin
  | reset => exact absurd rfl hnr
  | extStart =>
    simp only [step] at h
    split_ifs at h with hsp
    simp only [Option.some.injEq, Prod.mk.injEq] at h
    obtain ⟨h1, h2⟩ := h
    subst h1
    exact hin

/-- C8: the lifecycle of one prefetch request for index `id`.  While the
request is outstanding, its in-flight mark survives every step other
than the settlement itself (and a full `clear()`); the settlement —
success or failure alike — removes `id` from the in-flight set (and the
request from the outstanding multiset) exactly then, so the mark is
removed exactly once, by the `finally` handler; a failed settlement
creates no cache entry, logs the error, and leaves the driver (playback)
untouched. -/
theorem prefetch_settle_contract (e : Engine) (id : Nat) (ok : Bool) (a : Action)
    (hid : id ∈ e.pending)
    (hna : ∀ b, a ≠ Action.prefetchSettle id b) (hnr : a ≠ Action.reset)
    (hin : id ∈ e.preloading) :
    (stepSt e (Action.prefetchSettle id ok)).preloading = e.preloading.erase id ∧
    (stepSt e (Action.prefetchSettle id ok)).pending = e.pending.erase id ∧
    (stepSt e (Action.prefetchSettle id false)).cache = e.cache ∧
    stepEvs e (Action.prefetchSettle id false) = [Ev.logErr id] ∧
    (stepSt e (Action.prefetchSettle id false)).phase = e.phase ∧
    id ∈ (stepSt e a).preloading := by
  obtain ⟨hl, hp, hph, hfail⟩ := prefetchSettle_state e id ok hid
  obtain ⟨hl2, hp2, hph2, hfail2⟩ := prefetchSettle_state e id false hid
  obtain ⟨hcache2, hevs2⟩ := hfail2 rfl
  refine ⟨hl, hp, hcache2, hevs2, hph2, ?_⟩
  rcases hs : step e a with _ | ⟨e1, v⟩
  · simpa [stepSt, hs] using hin
  · have := step_preserves_inflight id e a e1 v hs hnr hna hin
    simpa [stepSt, hs] using this

theorem prefetch_settle_contract_witness :
    (stepSt ((runSession 3 0 []).1) (Action.prefetchSettle 1 false)).preloading =
      ((runSession 3 0 []).1).preloading.erase 1 ∧
    (stepSt ((runSession 3 0 []).1) (Action.prefetchSettle 1 false)).pending =
      ((runSession 3 0 []).1).pending.erase 1 ∧
    (stepSt ((runSession 3 0 []).1) (Action.prefetchSettle 1 false)).cache =
      ((runSession 3 0 []).1).cache ∧
    stepEvs ((runSession 3 0 []).1) (Action.prefetchSettle 1 false) = [Ev.logErr 1] ∧
    (stepSt ((runSession 3 0 []).1) (Action.prefetchSettle 1 false)).phase =
      ((runSession 3 0 []).1).phase ∧
    1 ∈ (stepSt ((runSession 3 0 []).1) (Action.prefetchSettle 2 true)).preloading :=
  prefetch_settle_contract _ 1 false (Action.prefetchSettle 2 true) (by decide)
    (by decide) (by decide) (by decide)

/-! ### The `playAudio` function in isolation

`playAudio` returns a promise whose settlement is driven by the audio
element's events.  We model one invocation by the value of the
cancellation flag at invocation time together with the event that ends
the playback attempt, and compute whether the promise resolves or
rejects and whether an audio element was constructed (and assigned to
`audioRef`) at all. -/

/-- How a playback attempt of the cache-enabled variant ends: natural
end, an `onerror` event, a rejection of the `play()` promise (the last
two record the value of the cancellation flag at the moment the handler
runs), or a synchronous failure while decoding the base64 payload. -/
inductive PlayEnding where
  | ended : PlayEnding
  | errorEvent (cancelledAtEvent : Bool) : PlayEnding
  | playRejected (cancelledAtEvent : Bool) : PlayEnding
  | decodeError : PlayEnding
  deriving DecidableEq

/-- How a playback attempt of the first variant ends (it builds a data
URL directly, so it has no separate decode step). -/
inductive PlayEndingV1 where
  | ended : PlayEndingV1
  | errorEvent (cancelledAtEvent : Bool) : PlayEndingV1
  | playRejected (cancelledAtEvent : Bool) : PlayEndingV1
  deriving DecidableEq

/-- Whether the promise returned by `playAudio` fulfills or rejects. -/
inductive PlayResult where
  | resolved : PlayResult
  | rejected : PlayResult
  deriving DecidableEq

/-- Outcome of one `playAudio` invocation: how its promise settles, and
whether an audio element was constructed and assigned to `audioRef`. -/
structure PlayRun where
  result : PlayResult
  constructed : Bool
  deriving DecidableEq

/-- `playAudio` of the cache-enabled variant (`App.tsx` lines 390-452):
if the cancellation flag is set at invocation, resolve immediately
without constructing anything; a decode failure rejects before
construction; after construction, `onended` resolves, while `onerror`
and a rejected `play()` resolve when the cancellation flag is set at
the time the handler runs and reject otherwise. -/
def playAudio (cancelledAtCall : Bool) (ending : PlayEnding) : PlayRun :=
  if cancelledAtCall then ⟨PlayResult.resolved, false⟩
  else
    match ending with
    | PlayEnding.ended => ⟨PlayResult.resolved, true⟩
    | PlayEnding.errorEvent c =>
      ⟨if c then PlayResult.resolved else PlayResult.rejected, true⟩
    | PlayEnding.playRejected c =>
      ⟨if c then PlayResult.resolved else PlayResult.rejected, true⟩
    | PlayEnding.decodeError => ⟨PlayResult.rejected, false⟩

/-- `playAudio` of the first variant (`App.tsx` lines 113-137): the
cancellation flag is consulted only at invocation time; `onerror` and a
rejected `play()` always reject, regardless of the flag. -/
def playAudioV1 (cancelledAtCall : Bool) (ending : PlayEndingV1) : PlayRun :=
  if cancelledAtCall then ⟨PlayResult.resolved, false⟩
  else
    match ending with
    | PlayEndingV1.ended => ⟨PlayResult.resolved, true⟩
    | PlayEndingV1.errorEvent _ => ⟨PlayResult.rejected, true⟩
    | PlayEndingV1.playRejected _ => ⟨PlayResult.rejected, true⟩

/-- C10: in both variants, calling `playAudio` with the cancellation
flag already set at invocation time resolves successfully without
constructing an audio element, assigning the audio handle, or starting
any playback, whatever would have happened afterwards. -/
theorem playAudio_cancelled_at_call_resolves (e1 : PlayEndingV1) (e2 : PlayEnding) :
    playAudioV1 true e1 = ⟨PlayResult.resolved, false⟩ ∧
    playAudio true e2 = ⟨PlayResult.resolved, false⟩ :=
  ⟨rfl, rfl⟩

/-- C6, counterexample: in the first variant of `playAudio`, an audio
error arriving while the cancellation flag is set is NOT reclassified:
the promise rejects (and the driver's catch treats it as a failure).
Only the flag's value at invocation time produces an immediate
resolve. -/
theorem playAudioV1_rejects_on_cancelled_error :
    playAudioV1 false (PlayEndingV1.errorEvent true) =
      ⟨PlayResult.rejected, true⟩ ∧
    playAudioV1 false (PlayEndingV1.playRejected true) =
      ⟨PlayResult.rejected, true⟩ := by
  decide

/-- C6, amended: in the cache-enabled (current) variant, an audio error
or a `play()` rejection occurring while the cancellation flag is set
makes `playAudio` resolve successfully (a normal stop); consequently the
driver continues past the `await` without entering its catch block: the
step emits no `alert`, so the session does not end in the failed state.
The first variant lacks this reclassification (see the
counterexample). -/
theorem playAudio_resolves_on_cancelled_error (c : Bool) (pe : PlayEnding)
    (e : Engine) (i : Nat)
    (hpe : pe = PlayEnding.errorEvent true ∨ pe = PlayEnding.playRejected true)
    (hp : e.phase = Phase.awaitPlay i true) (hcc : e.cancelled = true) :
    (playAudio c pe).result = PlayResult.resolved ∧
    Ev.alertErr ∉ stepEvs e Action.playErr := by
  constructor
  · rcases hpe with rfl | rfl <;> cases c <;> rfl
  · have hstep : step e Action.playErr =
        some (iterate { e with audioSet := false, phase := Phase.awaitPlay i true }
          (i + 1)) := by
      simp [step, hp, hcc]
    rw [iterate_cancelled_true _ _ (by simpa using hcc)] at hstep
    simp [stepEvs, hstep]

theorem playAudio_resolves_on_cancelled_error_witness :
    (playAudio false (PlayEnding.errorEvent true)).result = PlayResult.resolved ∧
    Ev.alertErr ∉ stepEvs
      ((runSession 2 0 [Action.synthSettle true, Action.stop]).1) Action.playErr :=
  playAudio_resolves_on_cancelled_error false _
    ((runSession 2 0 [Action.synthSettle true, Action.stop]).1) 0
    (Or.inl rfl) (by decide) (by decide)

/-- C7: the prefetch block's `ensure` is idempotent de-duplication:
calling it a second time immediately after a first call is a no-op that
issues no request (whatever the first call did); two consecutive calls
issue at most one underlying synthesis request; and whenever the index
is already cached or already in the in-flight set, `ensure` leaves the
state unchanged and issues nothing. -/
theorem ensure_deduplicates (e : Engine) (id : Nat) :
    ensure (ensure e id).1 id = ((ensure e id).1, ([] : List Ev)) ∧
    ((ensure e id).2 ++ (ensure (ensure e id).1 id).2).count (Ev.reqPrefetch id) ≤ 1 ∧
    (id ∈ e.cache ∨ id ∈ e.preloading → ensure e id = (e, ([] : List Ev))) := by
  by_cases h1 : id < e.n
  · by_cases h2 : id ∉ e.cache ∧ id ∉ e.preloading
    · have he2 : ensure (ensure e id).1 id = ((ensure e id).1, ([] : List Ev)) := by
        simp only [ensure, if_pos h1, if_pos h2]
        simp
      refine ⟨he2, ?_, ?_⟩
      · rw [he2]
        simp only [ensure, if_pos h1, if_pos h2]
        simp
      · intro hm
        rcases hm with hm | hm
        · exact absurd hm h2.1
        · exact absurd hm h2.2
    · have he : ensure e id = (e, ([] : List Ev)) := by
        unfold ensure
        rw [if_pos h1, if_neg h2]
      refine ⟨?_, ?_, fun _ => he⟩
      · rw [he]
        exact he
      · simp [he]
  · have he : ensure e id = (e, ([] : List Ev)) := by
      unfold ensure
      rw [if_neg h1]
    refine ⟨?_, ?_, fun _ => he⟩
    · rw [he]
      exact he
    · simp [he]

theorem ensure_deduplicates_witness :
    ensure ((runSession 3 0 []).1) 1 = (((runSession 3 0 []).1), ([] : List Ev)) :=
  (ensure_deduplicates ((runSession 3 0 []).1) 1).2.2 (Or.inr (by decide))

end Playback
